import Mathlib

/-!
# p2psc `Socket` (src/socket/socket.cpp): a shallow embedding

The C++ class `p2psc::Socket` wraps one TCP descriptor.  Every method is a
short sequence of system calls, so the embedding is explicit state passing:

* the operating system is a record `OS σ` of deterministic transition
  functions over an arbitrary state type `σ` (any sequence of system-call
  results is realised by some such record);
* a `World σ` carries the OS state and the list of system calls issued so far;
* each method returns an `Outcome` (normal return, thrown
  `socket::SocketException`, failed `BOOST_ASSERT`, or loop budget exhausted),
  the member variables at exit, and the new world.

`socket::RECV_BUF_SIZE` (declared in a header) is the parameter `C`.
-/

namespace p2psc

/-! ## Data model -/

/-- One `char` of a `std::string` payload. -/
abbrev Byte := Fin 256

/-- The fields of `struct sockaddr_in` that the class uses: `sin_port` holds
the port in network byte order, `sin_addr` the four address bytes in memory
order. -/
structure SockAddrIn where
  sin_port : Nat
  sin_addr : List Nat
deriving DecidableEq, Repr

/-- Modelled from the spec: the value type `socket::SocketAddress`, declared in
a header, is an immutable pair of IPv4 dotted-decimal text and port number. -/
structure SocketAddress where
  ip : String
  port : Nat
deriving DecidableEq, Repr

/-- The exception `socket::SocketException` (declared in a header); every
`throw` in the class builds it from one text, its only payload. -/
structure SocketException where
  what : String
deriving DecidableEq, Repr

/-- How a method call ends. -/
inductive Outcome (α : Type) where
  | returned (a : α)
  | threw (e : SocketException)
  | assertFailed
  | outOfFuel
deriving DecidableEq, Repr

/-- One system call together with the result the OS gave. -/
inductive Event where
  | socket (ret : Int)
  | connect (fd : Int) (addr : SockAddrIn) (ret : Int)
  | send (fd : Int) (msg : List Byte) (ret : Int)
  | read (fd : Int) (count : Nat) (ret : Option (List Byte))
  | fionread (fd : Int) (count : Int)
  | close (fd : Int) (ret : Int)
deriving DecidableEq, Repr

/-- The operating system as seen by the class.  `read` yields `none` for the
return value `-1` and `some bytes` for a successful read of `bytes.length`
bytes; `errno` is read from the state left by the last call. -/
structure OS (σ : Type) where
  socket : σ → Int × σ
  connect : σ → Int → SockAddrIn → Int × σ
  send : σ → Int → List Byte → Int × σ
  read : σ → Int → Nat → Option (List Byte) × σ
  fionread : σ → Int → Int × σ
  close : σ → Int → Int × σ
  errno : σ → Int
  strerror : Int → String
  littleEndian : Bool

/-- OS state plus the log of system calls issued so far. -/
structure World (σ : Type) where
  os : σ
  trace : List Event

/-- Member variables of `p2psc::Socket`. -/
structure Socket where
  _sock_fd : Int
  _address : SockAddrIn
  _is_open : Bool
deriving DecidableEq, Repr

/-! ## System-call wrappers (each logs its call) -/

variable {σ : Type}

def sys_socket (k : OS σ) (w : World σ) : Int × World σ :=
  let r := k.socket w.os
  (r.1, ⟨r.2, w.trace ++ [Event.socket r.1]⟩)

def sys_connect (k : OS σ) (w : World σ) (fd : Int) (a : SockAddrIn) : Int × World σ :=
  let r := k.connect w.os fd a
  (r.1, ⟨r.2, w.trace ++ [Event.connect fd a r.1]⟩)

def sys_send (k : OS σ) (w : World σ) (fd : Int) (msg : List Byte) : Int × World σ :=
  let r := k.send w.os fd msg
  (r.1, ⟨r.2, w.trace ++ [Event.send fd msg r.1]⟩)

/-- The call `read(fd, buf, count)`: the buffer receives at most `count` bytes. -/
def sys_read (k : OS σ) (w : World σ) (fd : Int) (count : Nat) :
    Option (List Byte) × World σ :=
  let r := k.read w.os fd count
  let got := r.1.map (List.take count)
  (got, ⟨r.2, w.trace ++ [Event.read fd count got]⟩)

def sys_fionread (k : OS σ) (w : World σ) (fd : Int) : Int × World σ :=
  let r := k.fionread w.os fd
  (r.1, ⟨r.2, w.trace ++ [Event.fionread fd r.1]⟩)

def sys_close (k : OS σ) (w : World σ) (fd : Int) : Int × World σ :=
  let r := k.close w.os fd
  (r.1, ⟨r.2, w.trace ++ [Event.close fd r.1]⟩)

/-! ## libc address helpers -/

/-- Swap the two bytes of a 16-bit value. -/
def bswap16 (x : Nat) : Nat := (x % 256) * 256 + (x / 256) % 256

/-- The libc `htons` on a `uint16_t` argument. -/
def htons (le : Bool) (x : Nat) : Nat :=
  if le then bswap16 (x % 65536) else x % 65536

/-- The libc `ntohs` on a `uint16_t` argument. -/
def ntohs (le : Bool) (x : Nat) : Nat :=
  if le then bswap16 (x % 65536) else x % 65536

/-- Decimal digit character. -/
def digitChar (d : Nat) : Char := Char.ofNat (48 + d)

/-- The `%u` rendering of one address byte. -/
def fmtOctet (n : Nat) : List Char :=
  if n < 10 then [digitChar n]
  else if n < 100 then [digitChar (n / 10), digitChar (n % 10)]
  else [digitChar (n / 100), digitChar (n / 10 % 10), digitChar (n % 10)]

/-- The libc `inet_ntop(AF_INET, ..)` / `inet_ntoa`: the address bytes in
decimal, separated by dots. -/
def inet_ntop (addr : List Nat) : String :=
  String.mk (List.intercalate ['.'] (addr.map fmtOctet))

/-- Scanner state of `inet_pton4`: `tmp` are the bytes already completed,
`cur` the byte under the write pointer. -/
structure PtonState where
  saw_digit : Bool
  octets : Nat
  tmp : List Nat
  cur : Nat
deriving DecidableEq, Repr

/-- The character loop of the libc `inet_pton4`. -/
def inet_pton4_loop : List Char → PtonState → Option PtonState
  | [], st => some st
  | ch :: rest, st =>
    if '0' ≤ ch ∧ ch ≤ '9' then
      let new := st.cur * 10 + (ch.toNat - '0'.toNat)
      if st.saw_digit = true ∧ st.cur = 0 then none
      else if new > 255 then none
      else if st.saw_digit = false then
        if st.octets + 1 > 4 then none
        else inet_pton4_loop rest
          { saw_digit := true, octets := st.octets + 1, tmp := st.tmp, cur := new }
      else inet_pton4_loop rest { st with cur := new }
    else if ch = '.' ∧ st.saw_digit = true then
      if st.octets = 4 then none
      else inet_pton4_loop rest
        { saw_digit := false, octets := st.octets, tmp := st.tmp ++ [st.cur], cur := 0 }
    else none

/-- The libc `inet_pton(AF_INET, src, dst)`: `some bytes` when it returns 1 and
writes `bytes` to `dst`, `none` when it returns 0 and leaves `dst` alone. -/
def inet_pton (src : String) : Option (List Nat) :=
  match inet_pton4_loop src.data ⟨false, 0, [], 0⟩ with
  | none => none
  | some st => if st.octets < 4 then none else some (st.tmp ++ [st.cur])

/-! ## The class `Socket` -/

/-- `Socket::_check_is_open`. -/
def Socket._check_is_open (s : Socket) : Outcome Unit :=
  if s._is_open = false then .threw ⟨"Socket is closed"⟩ else .returned ()

/-- `Socket::_connect`; `asserts` tells whether `BOOST_ASSERT` is compiled in. -/
def Socket._connect (asserts : Bool) (k : OS σ) (s : Socket) (w : World σ) :
    Outcome Unit × Socket × World σ :=
  if asserts = true ∧ s._is_open = true then (.assertFailed, s, w)
  else
    let r := sys_connect k w s._sock_fd s._address
    if r.1 ≠ 0 then
      (.threw ⟨"Failed to connect to " ++ inet_ntop s._address.sin_addr ++ ":" ++
          toString (ntohs k.littleEndian s._address.sin_port) ++ ". Reason: " ++
          k.strerror (k.errno r.2.os)⟩, s, r.2)
    else (.returned (), { s with _is_open := true }, r.2)

/-- The constructor `Socket::Socket(const socket::SocketAddress &)`.  The
second component is the member state when the constructor exits (normally or
by exception). -/
def Socket.ctor (asserts : Bool) (k : OS σ) (socket_address : SocketAddress)
    (w : World σ) : Outcome Unit × Socket × World σ :=
  let sin_port := htons k.littleEndian socket_address.port
  let sin_addr := match inet_pton socket_address.ip with
    | some bytes => bytes
    | none => [0, 0, 0, 0]
  let r := sys_socket k w
  Socket._connect asserts k ⟨r.1, ⟨sin_port, sin_addr⟩, false⟩ r.2

/-- The destructor `Socket::~Socket`. -/
def Socket.destroy (k : OS σ) (s : Socket) (w : World σ) : Socket × World σ :=
  if s._is_open = true then
    let r := sys_close k w s._sock_fd
    ({ s with _is_open := false }, r.2)
  else (s, w)

/-- `Socket::send`.  `size` is a `ssize_t`; the comparison is made after the
conversion to `unsigned long` (64 bits). -/
def Socket.send (k : OS σ) (s : Socket) (message : List Byte) (w : World σ) :
    Outcome Unit × Socket × World σ :=
  match s._check_is_open with
  | .returned () =>
    let r := sys_send k w s._sock_fd message
    let size := r.1
    if (size % 2 ^ 64).toNat ≠ message.length then
      let fmt := "Unexpected data send length. Expected: " ++ toString message.length ++
        ", actual: " ++ toString size
      let fmt := if k.errno r.2.os ≠ 0 then
        fmt ++ ". Reason: " ++ k.strerror (k.errno r.2.os) else fmt
      (.threw ⟨fmt⟩, s, r.2)
    else (.returned (), s, r.2)
  | .threw e => (.threw e, s, w)
  | .assertFailed => (.assertFailed, s, w)
  | .outOfFuel => (.outOfFuel, s, w)

/-- The code of `Socket::receive` after the `do ... while` loop. -/
def receive_after (received_bytes : Nat) (received_data : List Byte) :
    Outcome (List Byte) :=
  if received_bytes = 0 then .threw ⟨"receive failed: Peer closed connection"⟩
  else .returned received_data

/-- The `do ... while` loop of `Socket::receive`, at most `fuel` iterations. -/
def receive_loop (k : OS σ) (C : Nat) (fd : Int) :
    Nat → List Byte → World σ → Outcome (List Byte) × World σ
  | 0, _, w => (.outOfFuel, w)
  | fuel + 1, received_data, w =>
    let r := sys_read k w fd C
    match r.1 with
    | none =>
      (.threw ⟨"receive failed (fd=" ++ toString fd ++ "): " ++
          k.strerror (k.errno r.2.os)⟩, r.2)
    | some chunk =>
      let received_bytes := chunk.length
      let received_data := received_data ++ chunk
      if received_bytes = C then
        let q := sys_fionread k r.2 fd
        if q.1 = 0 then (receive_after received_bytes received_data, q.2)
        else receive_loop k C fd fuel received_data q.2
      else (receive_after received_bytes received_data, r.2)

/-- `Socket::receive` with chunk size `C = socket::RECV_BUF_SIZE`. -/
def Socket.receive (k : OS σ) (C : Nat) (fuel : Nat) (s : Socket) (w : World σ) :
    Outcome (List Byte) × Socket × World σ :=
  match s._check_is_open with
  | .returned () =>
    let r := receive_loop k C s._sock_fd fuel [] w
    (r.1, s, r.2)
  | .threw e => (.threw e, s, w)
  | .assertFailed => (.assertFailed, s, w)
  | .outOfFuel => (.outOfFuel, s, w)

/-- `Socket::get_socket_address`. -/
def Socket.get_socket_address (le : Bool) (s : Socket) : SocketAddress :=
  ⟨inet_ntop s._address.sin_addr, ntohs le s._address.sin_port⟩

/-- `Socket::close`; `asserts` tells whether `BOOST_ASSERT` is compiled in. -/
def Socket.close (asserts : Bool) (k : OS σ) (s : Socket) (w : World σ) :
    Outcome Unit × Socket × World σ :=
  if asserts = true ∧ s._is_open = false then (.assertFailed, s, w)
  else
    let r := sys_close k w s._sock_fd
    if r.1 ≠ 0 then
      (.threw ⟨"Failed to close socket. Reason: " ++ k.strerror (k.errno r.2.os)⟩, s, r.2)
    else (.returned (), { s with _is_open := false }, r.2)

/-! ## Observing a run -/

/-- The system calls issued between world `w` and the later world `w1`. -/
def issued (w w1 : World σ) : List Event := w1.trace.drop w.trace.length

/-- Payloads of the successful `read` calls of a trace, in order. -/
def readChunks : List Event → List (List Byte)
  | [] => []
  | Event.read _ _ (some chunk) :: rest => chunk :: readChunks rest
  | _ :: rest => readChunks rest

def Event.isRead : Event → Bool
  | Event.read _ _ _ => true
  | _ => false

def Event.isQuery : Event → Bool
  | Event.fionread _ _ => true
  | _ => false

/-! ## Concrete operating systems -/

/-- A silent peer after one burst: the state is the queue of unread bytes.
`read` hands out the next `min count remaining` bytes, `FIONREAD` reports the
number still unread; the other calls succeed and change nothing. -/
def queueOS : OS (List Byte) where
  socket := fun q => (3, q)
  connect := fun q _ _ => (0, q)
  send := fun q _ msg => (msg.length, q)
  read := fun q _ count => (some (q.take count), q.drop count)
  fionread := fun q _ => (q.length, q)
  close := fun q _ => (0, q)
  errno := fun _ => 0
  strerror := fun _ => "Success"
  littleEndian := true

/-- State of the scripted OS: the results still to be handed out. -/
structure Script where
  reads : List (Option (List Byte))
  counts : List Int
  rets : List Int
  err : Int
deriving DecidableEq, Repr

/-- An OS that replays a script: `read` pops `reads`, `FIONREAD` pops
`counts`, every other call pops `rets` (an exhausted list yields end of file,
zero and zero). -/
def scriptOS : OS Script where
  socket := fun q => (q.rets.headD 0, { q with rets := q.rets.tail })
  connect := fun q _ _ => (q.rets.headD 0, { q with rets := q.rets.tail })
  send := fun q _ _ => (q.rets.headD 0, { q with rets := q.rets.tail })
  read := fun q _ _ => (q.reads.headD (some []), { q with reads := q.reads.tail })
  fionread := fun q _ => (q.counts.headD 0, { q with counts := q.counts.tail })
  close := fun q _ => (q.rets.headD 0, { q with rets := q.rets.tail })
  errno := fun q => q.err
  strerror := fun e => if e = 111 then "Connection refused" else "Unknown error"
  littleEndian := true

/-- State of the descriptor-table OS: the descriptors currently open. -/
structure FdTable where
  openFds : List Int
  err : Int
deriving DecidableEq, Repr

/-- An OS that keeps account of open descriptors and refuses every connect:
`socket` opens the lowest descriptor above all open ones (at least 3),
`close` releases a descriptor, `connect` fails with `ECONNREFUSED`. -/
def refusingOS : OS FdTable where
  socket := fun t => (t.openFds.foldl max 2 + 1, ⟨(t.openFds.foldl max 2 + 1) :: t.openFds, t.err⟩)
  connect := fun t _ _ => (-1, { t with err := 111 })
  send := fun t _ _ => (-1, { t with err := 32 })
  read := fun t _ _ => (none, { t with err := 107 })
  fionread := fun t _ => (0, t)
  close := fun t fd =>
    if fd ∈ t.openFds then (0, { t with openFds := t.openFds.erase fd })
    else (-1, { t with err := 9 })
  errno := fun t => t.err
  strerror := fun e => if e = 111 then "Connection refused" else "Unknown error"
  littleEndian := true

/-- The canonical dotted-decimal text of four address bytes. -/
def dottedDecimal (a b c d : Nat) : String :=
  toString a ++ "." ++ toString b ++ "." ++ toString c ++ "." ++ toString d

/-- The `sockaddr_in` the constructor fills in before it connects. -/
def ctorSockAddr (le : Bool) (addr : SocketAddress) : SockAddrIn :=
  ⟨htons le addr.port,
    match inet_pton addr.ip with
    | some bytes => bytes
    | none => [0, 0, 0, 0]⟩

/-- The text of the exception thrown when `read` reports an error. -/
def receiveErrorText (k : OS σ) (fd : Int) (os : σ) : String :=
  "receive failed (fd=" ++ toString fd ++ "): " ++ k.strerror (k.errno os)

/-- The possible runs of the loop of `receive`, as a relation between the
bytes accumulated before, the system calls issued, and the outcome. -/
inductive Run (C : Nat) (fd : Int) (emsg : String) :
    List Byte → List Event → Outcome (List Byte) → Prop
  | fuel (acc : List Byte) : Run C fd emsg acc [] .outOfFuel
  | err (acc : List Byte) : Run C fd emsg acc [Event.read fd C none] (.threw ⟨emsg⟩)
  | short (acc chunk : List Byte) : chunk.length ≠ C → chunk.length ≤ C →
      Run C fd emsg acc [Event.read fd C (some chunk)]
        (receive_after chunk.length (acc ++ chunk))
  | stop (acc chunk : List Byte) : chunk.length = C →
      Run C fd emsg acc [Event.read fd C (some chunk), Event.fionread fd 0]
        (receive_after chunk.length (acc ++ chunk))
  | more (acc chunk : List Byte) (count : Int) (E : List Event)
      (out : Outcome (List Byte)) : chunk.length = C → count ≠ 0 →
      Run C fd emsg (acc ++ chunk) E out →
      Run C fd emsg acc (Event.read fd C (some chunk) :: Event.fionread fd count :: E) out

/-! ## Closed connections, `send`, `close` -/

theorem closedText_ne (x : String) :
    ("Failed to close socket. Reason: " ++ x : String) ≠ "Socket is closed" := by
  intro h
  have h2 := congrArg String.data h
  simp [String.data_append] at h2

/-- C4: on a connection whose `_is_open` is false (the state every successful
`close` leaves), `send` and `receive` both throw "Socket is closed", issue no
system call and leave the members and the world as they were. -/
theorem closed_connection_rejects_send_receive (k : OS σ) (C fuel : Nat) (s : Socket)
    (w : World σ) (message : List Byte) (h : s._is_open = false) :
    Socket.send k s message w = (.threw ⟨"Socket is closed"⟩, s, w) ∧
    Socket.receive k C fuel s w = (.threw ⟨"Socket is closed"⟩, s, w) ∧
    (∀ (asserts : Bool) (s0 : Socket) (w0 : World σ),
      (Socket.close asserts k s0 w0).1 = .returned () →
      (Socket.close asserts k s0 w0).2.1._is_open = false) := by
  refine ⟨?_, ?_, ?_⟩
  · simp [Socket.send, Socket._check_is_open, h]
  · simp [Socket.receive, Socket._check_is_open, h]
  · intro asserts s0 w0
    simp only [Socket.close]
    split
    · simp
    · by_cases hr : (sys_close k w0 s0._sock_fd).1 = 0 <;> simp [hr]

/-- An instance of C4: `send` of two bytes on a closed connection. -/
theorem closed_connection_rejects_send_receive_witness :
    Socket.send scriptOS ⟨3, ⟨0, [0, 0, 0, 0]⟩, false⟩ [1, 2] ⟨⟨[], [], [], 0⟩, []⟩
      = (.threw ⟨"Socket is closed"⟩, ⟨3, ⟨0, [0, 0, 0, 0]⟩, false⟩, ⟨⟨[], [], [], 0⟩, []⟩) :=
  (closed_connection_rejects_send_receive scriptOS 4 10 ⟨3, ⟨0, [0, 0, 0, 0]⟩, false⟩
    ⟨⟨[], [], [], 0⟩, []⟩ [1, 2] rfl).1

/-- `send` on an open connection, with the guard resolved. -/
theorem send_of_open (k : OS σ) (s : Socket) (message : List Byte) (w : World σ)
    (hopen : s._is_open = true) :
    Socket.send k s message w =
      if ((k.send w.os s._sock_fd message).1 % 2 ^ 64).toNat ≠ message.length then
        (.threw ⟨if k.errno (k.send w.os s._sock_fd message).2 ≠ 0 then
            "Unexpected data send length. Expected: " ++ toString message.length ++
              ", actual: " ++ toString (k.send w.os s._sock_fd message).1 ++
              ". Reason: " ++ k.strerror (k.errno (k.send w.os s._sock_fd message).2)
          else
            "Unexpected data send length. Expected: " ++ toString message.length ++
              ", actual: " ++ toString (k.send w.os s._sock_fd message).1⟩, s,
          ⟨(k.send w.os s._sock_fd message).2,
            w.trace ++ [Event.send s._sock_fd message (k.send w.os s._sock_fd message).1]⟩)
      else
        (.returned (), s,
          ⟨(k.send w.os s._sock_fd message).2,
            w.trace ++ [Event.send s._sock_fd message (k.send w.os s._sock_fd message).1]⟩) := by
  obtain ⟨fd, addr, o⟩ := s
  simp only at hopen
  subst hopen
  rfl

/-- C5: on an open connection `send` issues exactly one `send` system call for
the whole message, returns normally exactly when the reported count equals the
message length, and otherwise (the value -1 included) throws an exception
whose text carries the expected length and the reported count.  The
hypotheses are the ranges of the C++ types: a `std::string` length and a
`ssize_t` return value. -/
theorem send_strict_length_check (k : OS σ) (s : Socket) (message : List Byte)
    (w : World σ) (hopen : s._is_open = true) (hlen : message.length < 2 ^ 63)
    (hlo : -(2 : Int) ^ 63 ≤ (k.send w.os s._sock_fd message).1)
    (hhi : (k.send w.os s._sock_fd message).1 < 2 ^ 63) :
    (Socket.send k s message w).2.2.trace
        = w.trace ++ [Event.send s._sock_fd message (k.send w.os s._sock_fd message).1] ∧
    (Socket.send k s message w).2.1 = s ∧
    ((Socket.send k s message w).1 = .returned () ↔
        (k.send w.os s._sock_fd message).1 = message.length) ∧
    ((k.send w.os s._sock_fd message).1 ≠ message.length →
        (Socket.send k s message w).1 = .threw ⟨"Unexpected data send length. Expected: " ++
          toString message.length ++ ", actual: " ++
          toString (k.send w.os s._sock_fd message).1 ++
          (if k.errno (k.send w.os s._sock_fd message).2 ≠ 0 then
            ". Reason: " ++ k.strerror (k.errno (k.send w.os s._sock_fd message).2)
          else "")⟩) := by
  have hcast : ((k.send w.os s._sock_fd message).1 % 2 ^ 64).toNat = message.length ↔
      (k.send w.os s._sock_fd message).1 = message.length := by
    constructor
    · intro h
      omega
    · intro h
      omega
  rw [send_of_open k s message w hopen]
  by_cases hc : (k.send w.os s._sock_fd message).1 = message.length
  · have hy : ((k.send w.os s._sock_fd message).1 % 2 ^ 64).toNat = message.length :=
      hcast.mpr hc
    rw [if_neg (not_not.mpr hy)]
    exact ⟨rfl, rfl, ⟨fun _ => hc, fun _ => rfl⟩, fun h => absurd hc h⟩
  · have hn : ((k.send w.os s._sock_fd message).1 % 2 ^ 64).toNat ≠ message.length :=
      fun h => hc (hcast.mp h)
    rw [if_pos hn]
    refine ⟨rfl, rfl, ⟨fun h => ?_, fun h => absurd h hc⟩, fun _ => ?_⟩
    · exact absurd h (by simp)
    · by_cases he : k.errno (k.send w.os s._sock_fd message).2 = 0
      · simp [he]
      · simp [he, String.append_assoc]

/-- An instance of C5: the OS reports -1 for a two-byte message. -/
theorem send_strict_length_check_witness :
    (Socket.send scriptOS ⟨3, ⟨0, [0, 0, 0, 0]⟩, true⟩ [1, 2] ⟨⟨[], [], [-1], 32⟩, []⟩).1
      = .threw ⟨"Unexpected data send length. Expected: 2, actual: -1. Reason: Unknown error"⟩ :=
  (send_strict_length_check scriptOS ⟨3, ⟨0, [0, 0, 0, 0]⟩, true⟩ [1, 2]
    ⟨⟨[], [], [-1], 32⟩, []⟩ rfl (by decide) (by decide) (by decide)).2.2.2 (by decide)

/-- C8, the claim as written fails: `close` on a connection that is not open
does not throw "Socket is closed".  With `BOOST_ASSERT` compiled in, the call
stops at the assertion; without it, the call goes on to the `close` system
call on the descriptor. -/
theorem close_on_closed_counterexample :
    (Socket.close true scriptOS ⟨3, ⟨0, [0, 0, 0, 0]⟩, false⟩ ⟨⟨[], [], [], 0⟩, []⟩).1
        = .assertFailed ∧
    (Socket.close true scriptOS ⟨3, ⟨0, [0, 0, 0, 0]⟩, false⟩ ⟨⟨[], [], [], 0⟩, []⟩).1
        ≠ .threw ⟨"Socket is closed"⟩ ∧
    (Socket.close false scriptOS ⟨3, ⟨0, [0, 0, 0, 0]⟩, false⟩ ⟨⟨[], [], [], 0⟩, []⟩).1
        ≠ .threw ⟨"Socket is closed"⟩ ∧
    (Socket.close false scriptOS ⟨3, ⟨0, [0, 0, 0, 0]⟩, false⟩ ⟨⟨[], [], [], 0⟩, []⟩).2.2.trace
        = [Event.close 3 0] := by
  refine ⟨rfl, ?_, ?_, rfl⟩
  · simp [Socket.close]
  · simp [Socket.close, sys_close, scriptOS]

/-- C8 as amended: on a connection whose `_is_open` is false, `close` never
throws the "Socket is closed" error of `send` and `receive`; being open is an
asserted precondition, and with `BOOST_ASSERT` compiled in the call stops at
the failed assertion with no system call issued and nothing changed. -/
theorem close_on_closed_asserts (asserts : Bool) (k : OS σ) (s : Socket) (w : World σ)
    (h : s._is_open = false) :
    (Socket.close asserts k s w).1 ≠ .threw ⟨"Socket is closed"⟩ ∧
    (asserts = true → Socket.close asserts k s w = (.assertFailed, s, w)) := by
  constructor
  · simp only [Socket.close]
    split
    · simp
    · by_cases hr : (sys_close k w s._sock_fd).1 = 0
      · simp [hr]
      · simp only [ne_eq, hr, not_false_eq_true, if_true]
        intro hx
        injection hx with hx
        injection hx with hx
        exact closedText_ne _ hx
  · intro ha
    simp [Socket.close, ha, h]

/-- An instance of amended C8: `close` on a closed connection, assertions on. -/
theorem close_on_closed_asserts_witness :
    Socket.close true scriptOS ⟨3, ⟨0, [0, 0, 0, 0]⟩, false⟩ ⟨⟨[], [], [], 0⟩, []⟩
      = (.assertFailed, ⟨3, ⟨0, [0, 0, 0, 0]⟩, false⟩, ⟨⟨[], [], [], 0⟩, []⟩) :=
  (close_on_closed_asserts true scriptOS ⟨3, ⟨0, [0, 0, 0, 0]⟩, false⟩
    ⟨⟨[], [], [], 0⟩, []⟩ rfl).2 rfl

/-! ## The receive loop -/

theorem receive_loop_err (k : OS σ) (C : Nat) (fd : Int) (n : Nat) (acc : List Byte)
    (w : World σ) (h : (sys_read k w fd C).1 = none) :
    receive_loop k C fd (n + 1) acc w =
      (.threw ⟨receiveErrorText k fd (sys_read k w fd C).2.os⟩, (sys_read k w fd C).2) := by
  simp only [receive_loop, h, receiveErrorText]

theorem receive_loop_short (k : OS σ) (C : Nat) (fd : Int) (n : Nat) (acc : List Byte)
    (w : World σ) (chunk : List Byte) (h : (sys_read k w fd C).1 = some chunk)
    (hne : chunk.length ≠ C) :
    receive_loop k C fd (n + 1) acc w =
      (receive_after chunk.length (acc ++ chunk), (sys_read k w fd C).2) := by
  simp only [receive_loop, h, if_neg hne]

theorem receive_loop_stop (k : OS σ) (C : Nat) (fd : Int) (n : Nat) (acc : List Byte)
    (w : World σ) (chunk : List Byte) (h : (sys_read k w fd C).1 = some chunk)
    (hfull : chunk.length = C) (hz : (sys_fionread k (sys_read k w fd C).2 fd).1 = 0) :
    receive_loop k C fd (n + 1) acc w =
      (receive_after chunk.length (acc ++ chunk),
        (sys_fionread k (sys_read k w fd C).2 fd).2) := by
  simp only [receive_loop, h, if_pos hfull, if_pos hz]

theorem receive_loop_more (k : OS σ) (C : Nat) (fd : Int) (n : Nat) (acc : List Byte)
    (w : World σ) (chunk : List Byte) (h : (sys_read k w fd C).1 = some chunk)
    (hfull : chunk.length = C) (hz : (sys_fionread k (sys_read k w fd C).2 fd).1 ≠ 0) :
    receive_loop k C fd (n + 1) acc w =
      receive_loop k C fd n (acc ++ chunk) (sys_fionread k (sys_read k w fd C).2 fd).2 := by
  simp only [receive_loop, h, if_pos hfull, if_neg hz]

theorem sys_read_trace (k : OS σ) (w : World σ) (fd : Int) (C : Nat) :
    (sys_read k w fd C).2.trace = w.trace ++ [Event.read fd C (sys_read k w fd C).1] := rfl

theorem sys_fionread_trace (k : OS σ) (w : World σ) (fd : Int) :
    (sys_fionread k w fd).2.trace = w.trace ++ [Event.fionread fd (sys_fionread k w fd).1] :=
  rfl

theorem sys_read_length_le (k : OS σ) (w : World σ) (fd : Int) (C : Nat)
    (chunk : List Byte) (h : (sys_read k w fd C).1 = some chunk) : chunk.length ≤ C := by
  simp only [sys_read] at h
  cases hr : (k.read w.os fd C).1 with
  | none => simp [hr] at h
  | some raw =>
    simp only [hr, Option.map_some', Option.some.injEq] at h
    subst h
    simp [List.length_take]

theorem receive_loop_run (k : OS σ) (C : Nat) (fd : Int) :
    ∀ (fuel : Nat) (acc : List Byte) (w : World σ),
      ∃ E, (receive_loop k C fd fuel acc w).2.trace = w.trace ++ E ∧
        Run C fd (receiveErrorText k fd (receive_loop k C fd fuel acc w).2.os) acc E
          (receive_loop k C fd fuel acc w).1 := by
  intro fuel
  induction fuel with
  | zero =>
    intro acc w
    exact ⟨[], by simp [receive_loop], Run.fuel acc⟩
  | succ n ih =>
    intro acc w
    cases hrd : (sys_read k w fd C).1 with
    | none =>
      refine ⟨[Event.read fd C none], ?_, ?_⟩
      · rw [receive_loop_err k C fd n acc w hrd, sys_read_trace, hrd]
      · rw [receive_loop_err k C fd n acc w hrd]
        exact Run.err acc
    | some chunk =>
      by_cases hfull : chunk.length = C
      · by_cases hz : (sys_fionread k (sys_read k w fd C).2 fd).1 = 0
        · refine ⟨[Event.read fd C (some chunk), Event.fionread fd 0], ?_, ?_⟩
          · rw [receive_loop_stop k C fd n acc w chunk hrd hfull hz, sys_fionread_trace,
              sys_read_trace, hrd, hz]
            simp
          · rw [receive_loop_stop k C fd n acc w chunk hrd hfull hz]
            exact Run.stop acc chunk hfull
        · obtain ⟨E, hE, hrun⟩ := ih (acc ++ chunk) (sys_fionread k (sys_read k w fd C).2 fd).2
          refine ⟨Event.read fd C (some chunk) ::
            Event.fionread fd (sys_fionread k (sys_read k w fd C).2 fd).1 :: E, ?_, ?_⟩
          · rw [receive_loop_more k C fd n acc w chunk hrd hfull hz, hE, sys_fionread_trace,
              sys_read_trace, hrd]
            simp
          · rw [receive_loop_more k C fd n acc w chunk hrd hfull hz]
            exact Run.more acc chunk _ E _ hfull hz hrun
      · refine ⟨[Event.read fd C (some chunk)], ?_, ?_⟩
        · rw [receive_loop_short k C fd n acc w chunk hrd hfull, sys_read_trace, hrd]
        · rw [receive_loop_short k C fd n acc w chunk hrd hfull]
          exact Run.short acc chunk hfull (sys_read_length_le k w fd C chunk hrd)

theorem receive_of_open (k : OS σ) (C fuel : Nat) (s : Socket) (w : World σ)
    (hopen : s._is_open = true) :
    Socket.receive k C fuel s w =
      ((receive_loop k C s._sock_fd fuel [] w).1, s,
        (receive_loop k C s._sock_fd fuel [] w).2) := by
  obtain ⟨fd, addr, o⟩ := s
  simp only at hopen
  subst hopen
  rfl

/-- On an open connection the calls issued by `receive` and its outcome form a
run of the loop started with nothing accumulated. -/
theorem receive_run (k : OS σ) (C fuel : Nat) (s : Socket) (w : World σ)
    (hopen : s._is_open = true) :
    Run C s._sock_fd (receiveErrorText k s._sock_fd (Socket.receive k C fuel s w).2.2.os) []
      (issued w (Socket.receive k C fuel s w).2.2) (Socket.receive k C fuel s w).1 := by
  rw [receive_of_open k C fuel s w hopen]
  obtain ⟨E, hE, hrun⟩ := receive_loop_run k C s._sock_fd fuel [] w
  have : issued w (receive_loop k C s._sock_fd fuel [] w).2 = E := by
    simp [issued, hE]
  simpa [this] using hrun

theorem receive_after_returned (n : Nat) (data out : List Byte)
    (h : receive_after n data = .returned out) : n ≠ 0 ∧ out = data := by
  unfold receive_after at h
  split at h
  · cases h
  · injection h with h
    exact ⟨by assumption, h.symm⟩

theorem Run.zero_read {C : Nat} {fd : Int} {emsg : String} (hC : 0 < C)
    {acc : List Byte} {E : List Event} {out : Outcome (List Byte)}
    (h : Run C fd emsg acc E out) (fd1 : Int) (n : Nat)
    (hmem : Event.read fd1 n (some []) ∈ E) :
    out = .threw ⟨"receive failed: Peer closed connection"⟩ := by
  induction h with
  | fuel acc => simp at hmem
  | err acc => simp at hmem
  | short acc chunk hne hle =>
    simp only [List.mem_singleton, Event.read.injEq, Option.some.injEq] at hmem
    obtain ⟨-, -, hc⟩ := hmem
    subst hc
    simp [receive_after]
  | stop acc chunk hfull =>
    simp only [List.mem_cons, Event.read.injEq, Option.some.injEq, List.mem_singleton,
      reduceCtorEq, or_false, List.not_mem_nil] at hmem
    obtain ⟨-, -, hc⟩ := hmem
    subst hc
    simp at hfull
    omega
  | more acc chunk count E out hfull hcount hrun ih =>
    simp only [List.mem_cons, Event.read.injEq, Option.some.injEq, reduceCtorEq,
      false_or] at hmem
    rcases hmem with ⟨-, -, hc⟩ | hmem
    · subst hc
      simp at hfull
      omega
    · exact ih hmem

theorem Run.returned_nonempty {C : Nat} {fd : Int} {emsg : String}
    {acc : List Byte} {E : List Event} {out : Outcome (List Byte)}
    (h : Run C fd emsg acc E out) (data : List Byte) (hout : out = .returned data) :
    data ≠ [] := by
  induction h with
  | fuel acc => cases hout
  | err acc => cases hout
  | short acc chunk hne hle =>
    obtain ⟨h0, hd⟩ := receive_after_returned _ _ _ hout
    subst hd
    intro hnil
    simp at hnil
    exact h0 (by simp [hnil.2])
  | stop acc chunk hfull =>
    obtain ⟨h0, hd⟩ := receive_after_returned _ _ _ hout
    subst hd
    intro hnil
    simp at hnil
    exact h0 (by simp [hnil.2])
  | more acc chunk count E out hfull hcount hrun ih => exact ih hout

/-- C3: with a positive chunk size, whenever some `read` issued by `receive`
on an open connection returns zero bytes (the first read or a later one), the
call throws "receive failed: Peer closed connection"; and every normal return
carries at least one byte. -/
theorem receive_peer_close_not_success (k : OS σ) (C fuel : Nat) (s : Socket)
    (w : World σ) (hC : 0 < C) (hopen : s._is_open = true) :
    (∀ (fd : Int) (n : Nat),
        Event.read fd n (some []) ∈ issued w (Socket.receive k C fuel s w).2.2 →
        (Socket.receive k C fuel s w).1
          = .threw ⟨"receive failed: Peer closed connection"⟩) ∧
    (∀ data : List Byte, (Socket.receive k C fuel s w).1 = .returned data → data ≠ []) :=
  ⟨fun fd n hmem => (receive_run k C fuel s w hopen).zero_read hC fd n hmem,
   fun data hout => (receive_run k C fuel s w hopen).returned_nonempty data hout⟩

/-- An instance of C3: a full chunk, a non-zero query, then a zero-byte read. -/
theorem receive_peer_close_not_success_witness :
    (Socket.receive scriptOS 2 5 ⟨3, ⟨0, [0, 0, 0, 0]⟩, true⟩
        ⟨⟨[some [7, 8], some []], [1], [], 0⟩, []⟩).1
      = .threw ⟨"receive failed: Peer closed connection"⟩ :=
  (receive_peer_close_not_success scriptOS 2 5 ⟨3, ⟨0, [0, 0, 0, 0]⟩, true⟩
    ⟨⟨[some [7, 8], some []], [1], [], 0⟩, []⟩ (by decide) rfl).1 3 2 (by decide)

theorem Run.later_read {C : Nat} {fd : Int} {emsg : String}
    {acc : List Byte} {E : List Event} {out : Outcome (List Byte)}
    (h : Run C fd emsg acc E out) :
    ∀ (i : Nat), 0 < i → ∀ (fd1 : Int) (n : Nat) (r : Option (List Byte)),
      E[i]? = some (Event.read fd1 n r) →
      2 ≤ i ∧ ∃ (chunk : List Byte) (count : Int),
        E[i - 2]? = some (Event.read fd C (some chunk)) ∧ chunk.length = C ∧
        E[i - 1]? = some (Event.fionread fd count) ∧ count ≠ 0 := by
  induction h with
  | fuel acc => intro i _ fd1 n r hi; simp at hi
  | err acc =>
    intro i hpos fd1 n r hi
    match i, hpos with
    | j + 1, _ => simp at hi
  | short acc chunk hne hle =>
    intro i hpos fd1 n r hi
    match i, hpos with
    | j + 1, _ => simp at hi
  | stop acc chunk hfull =>
    intro i hpos fd1 n r hi
    match i, hpos with
    | 1, _ => simp at hi
    | j + 2, _ => simp at hi
  | more acc chunk count E out hfull hcount hrun ih =>
    intro i hpos fd1 n r hi
    match i, hpos with
    | 1, _ => simp at hi
    | 2, _ => exact ⟨le_refl 2, chunk, count, by simp, hfull, by simp, hcount⟩
    | j + 3, _ =>
      have hi2 : E[j + 1]? = some (Event.read fd1 n r) := by simpa using hi
      obtain ⟨h2, c, q, hc, hlen, hq, hq0⟩ := ih (j + 1) (Nat.succ_pos j) fd1 n r hi2
      have hj : j + 1 - 2 + 2 = j + 1 := by omega
      refine ⟨by omega, c, q, ?_, hlen, ?_, hq0⟩
      · have : j + 3 - 2 = (j + 1 - 2) + 1 + 1 := by omega
        rw [this]
        simpa using hc
      · have : j + 3 - 1 = (j + 1 - 1) + 1 + 1 := by omega
        rw [this]
        simpa using hq

theorem Run.short_read_last {C : Nat} {fd : Int} {emsg : String}
    {acc : List Byte} {E : List Event} {out : Outcome (List Byte)}
    (h : Run C fd emsg acc E out) :
    ∀ (i : Nat) (fd1 : Int) (n : Nat) (chunk : List Byte),
      E[i]? = some (Event.read fd1 n (some chunk)) → chunk.length < C →
      E.length = i + 1 := by
  induction h with
  | fuel acc => intro i fd1 n c hi; simp at hi
  | err acc =>
    intro i fd1 n c hi
    match i with
    | 0 => simp at hi
    | j + 1 => simp at hi
  | short acc chunk hne hle =>
    intro i fd1 n c hi _
    match i with
    | 0 => rfl
    | j + 1 => simp at hi
  | stop acc chunk hfull =>
    intro i fd1 n c hi hlt
    match i with
    | 0 =>
      simp only [List.getElem?_cons_zero, Option.some.injEq, Event.read.injEq] at hi
      obtain ⟨-, -, hc⟩ := hi
      subst hc
      omega
    | 1 => simp at hi
    | j + 2 => simp at hi
  | more acc chunk count E out hfull hcount hrun ih =>
    intro i fd1 n c hi hlt
    match i with
    | 0 =>
      simp only [List.getElem?_cons_zero, Option.some.injEq, Event.read.injEq] at hi
      obtain ⟨-, -, hc⟩ := hi
      subst hc
      omega
    | 1 => simp at hi
    | j + 2 =>
      have hi2 : E[j]? = some (Event.read fd1 n (some c)) := by simpa using hi
      have := ih j fd1 n c hi2 hlt
      simp [this]

theorem receive_issued_closed (k : OS σ) (C fuel : Nat) (s : Socket) (w : World σ)
    (h : s._is_open = false) : issued w (Socket.receive k C fuel s w).2.2 = [] := by
  simp [Socket.receive, Socket._check_is_open, h, issued]

/-- C9: among the system calls issued by one `receive` (on any connection, any
OS, any loop budget), every `read` after the first comes right after a
`FIONREAD` query that reported a non-zero count, which itself comes right
after a `read` that returned exactly `C` bytes; and a `read` that returns
fewer than `C` bytes is the last call issued (no query, no further read). -/
theorem receive_drain_reads_guarded (k : OS σ) (C fuel : Nat) (s : Socket) (w : World σ) :
    (∀ (i : Nat), 0 < i → ∀ (fd : Int) (n : Nat) (r : Option (List Byte)),
      (issued w (Socket.receive k C fuel s w).2.2)[i]? = some (Event.read fd n r) →
      2 ≤ i ∧ ∃ (chunk : List Byte) (count : Int),
        (issued w (Socket.receive k C fuel s w).2.2)[i - 2]?
          = some (Event.read s._sock_fd C (some chunk)) ∧ chunk.length = C ∧
        (issued w (Socket.receive k C fuel s w).2.2)[i - 1]?
          = some (Event.fionread s._sock_fd count) ∧ count ≠ 0) ∧
    (∀ (i : Nat) (fd : Int) (n : Nat) (chunk : List Byte),
      (issued w (Socket.receive k C fuel s w).2.2)[i]? = some (Event.read fd n (some chunk)) →
      chunk.length < C →
      (issued w (Socket.receive k C fuel s w).2.2).length = i + 1) := by
  cases hopen : s._is_open with
  | true =>
    exact ⟨(receive_run k C fuel s w hopen).later_read,
      (receive_run k C fuel s w hopen).short_read_last⟩
  | false =>
    rw [receive_issued_closed k C fuel s w hopen]
    constructor
    · intro i _ fd n r hi
      simp at hi
    · intro i fd n chunk hi
      simp at hi

/-- An instance of C9: a full chunk, a non-zero query, then a short chunk that
ends the call after three system calls. -/
theorem receive_drain_reads_guarded_witness :
    (issued (⟨⟨[some [7, 8], some [9]], [1], [], 0⟩, []⟩ : World Script)
      (Socket.receive scriptOS 2 5 ⟨3, ⟨0, [0, 0, 0, 0]⟩, true⟩
        ⟨⟨[some [7, 8], some [9]], [1], [], 0⟩, []⟩).2.2).length = 2 + 1 :=
  (receive_drain_reads_guarded scriptOS 2 5 ⟨3, ⟨0, [0, 0, 0, 0]⟩, true⟩
    ⟨⟨[some [7, 8], some [9]], [1], [], 0⟩, []⟩).2 2 3 2 [9] (by decide) (by decide)

theorem Run.error_read {C : Nat} {fd : Int} {emsg : String}
    {acc : List Byte} {E : List Event} {out : Outcome (List Byte)}
    (h : Run C fd emsg acc E out) (fd1 : Int) (n : Nat)
    (hmem : Event.read fd1 n none ∈ E) : out = .threw ⟨emsg⟩ := by
  induction h with
  | fuel acc => simp at hmem
  | err acc => rfl
  | short acc chunk hne hle => simp at hmem
  | stop acc chunk hfull => simp at hmem
  | more acc chunk count E out hfull hcount hrun ih =>
    simp only [List.mem_cons, Event.read.injEq, reduceCtorEq, and_false, false_or] at hmem
    exact ih hmem

theorem Run.returned_chunks {C : Nat} {fd : Int} {emsg : String}
    {acc : List Byte} {E : List Event} {out : Outcome (List Byte)}
    (h : Run C fd emsg acc E out) (data : List Byte) (hout : out = .returned data) :
    ∃ (front : List (List Byte)) (last : List Byte),
      readChunks E = front ++ [last] ∧
      E.countP Event.isRead = front.length + 1 ∧
      data = acc ++ (front ++ [last]).flatten ∧
      (∀ c ∈ front, c.length = C) ∧ 1 ≤ last.length ∧ last.length ≤ C := by
  induction h with
  | fuel acc => cases hout
  | err acc => cases hout
  | short acc chunk hne hle =>
    obtain ⟨h0, hd⟩ := receive_after_returned _ _ _ hout
    refine ⟨[], chunk, by simp [readChunks], by simp [Event.isRead], by simp [hd], ?_, ?_, hle⟩
    · intro c hc
      simp at hc
    · omega
  | stop acc chunk hfull =>
    obtain ⟨h0, hd⟩ := receive_after_returned _ _ _ hout
    refine ⟨[], chunk, by simp [readChunks], by simp [Event.isRead], by simp [hd], ?_, ?_, ?_⟩
    · intro c hc
      simp at hc
    · omega
    · omega
  | more acc chunk count E out hfull hcount hrun ih =>
    obtain ⟨front, last, hch, hcnt, hdata, hfront, h1, h2⟩ := ih hout
    refine ⟨chunk :: front, last, by simp [readChunks, hch], ?_, ?_, ?_, h1, h2⟩
    · simp [Event.isRead, hcnt]
    · simp [hdata]
    · intro c hc
      simp only [List.mem_cons] at hc
      rcases hc with hc | hc
      · rw [hc]
        exact hfull
      · exact hfront c hc

theorem flatten_full_length (C : Nat) (front : List (List Byte))
    (h : ∀ c ∈ front, c.length = C) : front.flatten.length = front.length * C := by
  induction front with
  | nil => simp
  | cons c rest ih =>
    have hc : c.length = C := h c (by simp)
    have hr : rest.flatten.length = rest.length * C :=
      ih (fun x hx => h x (by simp [hx]))
    simp only [List.flatten_cons, List.length_append, List.length_cons, hc, hr]
    rw [Nat.succ_mul]
    omega

/-- C10: when `receive` on an open connection returns normally after `n`
reads, the `n` chunks read are `front ++ [last]` with `front.length + 1 = n`,
the returned bytes are their concatenation in order, every chunk of `front`
has exactly `C` bytes, `1 ≤ last.length ≤ C`, and the total length is
`(n - 1) * C + last.length`; when some `read` reports an error, the call
throws the "receive failed (fd=..)" exception and so returns no bytes. -/
theorem receive_result_is_chunk_concatenation (k : OS σ) (C fuel : Nat) (s : Socket)
    (w : World σ) (hopen : s._is_open = true) :
    (∀ data : List Byte, (Socket.receive k C fuel s w).1 = .returned data →
      ∃ (front : List (List Byte)) (last : List Byte),
        readChunks (issued w (Socket.receive k C fuel s w).2.2) = front ++ [last] ∧
        (issued w (Socket.receive k C fuel s w).2.2).countP Event.isRead
          = front.length + 1 ∧
        data = (front ++ [last]).flatten ∧
        (∀ c ∈ front, c.length = C) ∧ 1 ≤ last.length ∧ last.length ≤ C ∧
        data.length = front.length * C + last.length) ∧
    (∀ (fd : Int) (n : Nat),
      Event.read fd n none ∈ issued w (Socket.receive k C fuel s w).2.2 →
      (Socket.receive k C fuel s w).1 = .threw ⟨"receive failed (fd=" ++
        toString s._sock_fd ++ "): " ++
        k.strerror (k.errno (Socket.receive k C fuel s w).2.2.os)⟩) := by
  constructor
  · intro data hout
    obtain ⟨front, last, hch, hcnt, hdata, hfront, h1, h2⟩ :=
      (receive_run k C fuel s w hopen).returned_chunks data hout
    refine ⟨front, last, hch, hcnt, by simpa using hdata, hfront, h1, h2, ?_⟩
    rw [hdata]
    simp [flatten_full_length C front hfront]
  · intro fd n hmem
    exact (receive_run k C fuel s w hopen).error_read fd n hmem

/-- Two instances of C10: chunks `[7, 8]` and `[9]` are returned as `[7, 8, 9]`;
an error on the second read throws and returns nothing. -/
theorem receive_result_is_chunk_concatenation_witness :
    (∃ (front : List (List Byte)) (last : List Byte),
      readChunks (issued (⟨⟨[some [7, 8], some [9]], [1], [], 0⟩, []⟩ : World Script)
        (Socket.receive scriptOS 2 5 ⟨3, ⟨0, [0, 0, 0, 0]⟩, true⟩
          ⟨⟨[some [7, 8], some [9]], [1], [], 0⟩, []⟩).2.2) = front ++ [last] ∧
      (issued (⟨⟨[some [7, 8], some [9]], [1], [], 0⟩, []⟩ : World Script)
        (Socket.receive scriptOS 2 5 ⟨3, ⟨0, [0, 0, 0, 0]⟩, true⟩
          ⟨⟨[some [7, 8], some [9]], [1], [], 0⟩, []⟩).2.2).countP Event.isRead
        = front.length + 1 ∧
      ([7, 8, 9] : List Byte) = (front ++ [last]).flatten ∧
      (∀ c ∈ front, c.length = 2) ∧ 1 ≤ last.length ∧ last.length ≤ 2 ∧
      ([7, 8, 9] : List Byte).length = front.length * 2 + last.length) ∧
    (Socket.receive scriptOS 2 5 ⟨3, ⟨0, [0, 0, 0, 0]⟩, true⟩
        ⟨⟨[some [7, 8], none], [1], [], 5⟩, []⟩).1
      = .threw ⟨"receive failed (fd=3): Unknown error"⟩ :=
  ⟨(receive_result_is_chunk_concatenation scriptOS 2 5 ⟨3, ⟨0, [0, 0, 0, 0]⟩, true⟩
      ⟨⟨[some [7, 8], some [9]], [1], [], 0⟩, []⟩ rfl).1 [7, 8, 9] (by decide),
   (receive_result_is_chunk_concatenation scriptOS 2 5 ⟨3, ⟨0, [0, 0, 0, 0]⟩, true⟩
      ⟨⟨[some [7, 8], none], [1], [], 5⟩, []⟩ rfl).2 3 2 (by decide)⟩

/-! ## A single burst from a silent peer -/

theorem queue_read (q : List Byte) (tr : List Event) (fd : Int) (C : Nat) :
    sys_read queueOS ⟨q, tr⟩ fd C =
      (some (q.take C), ⟨q.drop C, tr ++ [Event.read fd C (some (q.take C))]⟩) := by
  simp [sys_read, queueOS, List.take_take]

theorem queue_fionread (q : List Byte) (tr : List Event) (fd : Int) :
    sys_fionread queueOS ⟨q, tr⟩ fd =
      ((q.length : Int), ⟨q, tr ++ [Event.fionread fd q.length]⟩) := rfl

theorem queue_loop_returns (C : Nat) (fd : Int) (hC : 0 < C) :
    ∀ (fuel : Nat) (acc q : List Byte) (tr : List Event), q ≠ [] →
      q.length ≤ fuel * C →
      (receive_loop queueOS C fd fuel acc ⟨q, tr⟩).1 = .returned (acc ++ q) ∧
      (receive_loop queueOS C fd fuel acc ⟨q, tr⟩).2.os = [] := by
  intro fuel
  induction fuel with
  | zero =>
    intro acc q tr hq hlen
    have : q.length = 0 := by omega
    exact absurd (List.length_eq_zero.mp this) hq
  | succ n ih =>
    intro acc q tr hq hlen
    have hqpos : 0 < q.length := List.length_pos.mpr hq
    have hrd : (sys_read queueOS ⟨q, tr⟩ fd C).1 = some (q.take C) := by
      rw [queue_read]
    by_cases hfull : (q.take C).length = C
    · have hge : C ≤ q.length := by
        rw [List.length_take] at hfull
        omega
      by_cases hz : (sys_fionread queueOS (sys_read queueOS ⟨q, tr⟩ fd C).2 fd).1 = 0
      · rw [receive_loop_stop queueOS C fd n acc ⟨q, tr⟩ (q.take C) hrd hfull hz]
        have hdrop : (q.drop C).length = 0 := by
          rw [queue_read, queue_fionread] at hz
          simpa using hz
        have hqC : q.length = C := by
          rw [List.length_drop] at hdrop
          omega
        have htake : q.take C = q := List.take_of_length_le (by omega)
        constructor
        · simp only [receive_after, hfull, htake]
          rw [if_neg (by omega)]
        · rw [queue_read, queue_fionread]
          exact List.length_eq_zero.mp hdrop
      · rw [receive_loop_more queueOS C fd n acc ⟨q, tr⟩ (q.take C) hrd hfull hz]
        rw [queue_read, queue_fionread] at hz ⊢
        have hne : q.drop C ≠ [] := by
          intro h
          apply hz
          simp [h]
        have hlen2 : (q.drop C).length ≤ n * C := by
          rw [List.length_drop]
          rw [Nat.succ_mul] at hlen
          omega
        have := ih (acc ++ q.take C) (q.drop C)
          (tr ++ [Event.read fd C (some (q.take C))] ++
            [Event.fionread fd (q.drop C).length]) hne hlen2
        simpa [List.append_assoc, List.take_append_drop] using this
    · rw [receive_loop_short queueOS C fd n acc ⟨q, tr⟩ (q.take C) hrd hfull]
      have hlt : q.length < C := by
        rw [List.length_take] at hfull
        omega
      have htake : q.take C = q := List.take_of_length_le (by omega)
      constructor
      · simp only [receive_after, htake]
        rw [if_neg (by omega)]
      · rw [queue_read]
        exact List.drop_of_length_le (by omega)

/-- C1: with a positive chunk size `C`, an open connection, exactly the
non-empty byte sequence `m` queued and a silent peer (`queueOS`), `receive`
returns normally with exactly `m` within `fuel` loop iterations for every
`fuel` with `m.length ≤ fuel * C`, leaving nothing queued. -/
theorem receive_single_burst_round_trip (C fuel : Nat) (s : Socket) (m : List Byte)
    (tr : List Event) (hC : 0 < C) (hm : m ≠ []) (hopen : s._is_open = true)
    (hfuel : m.length ≤ fuel * C) :
    (Socket.receive queueOS C fuel s ⟨m, tr⟩).1 = .returned m ∧
    (Socket.receive queueOS C fuel s ⟨m, tr⟩).2.1 = s ∧
    (Socket.receive queueOS C fuel s ⟨m, tr⟩).2.2.os = [] := by
  rw [receive_of_open queueOS C fuel s ⟨m, tr⟩ hopen]
  have := queue_loop_returns C s._sock_fd hC fuel [] m tr hm hfuel
  exact ⟨by simpa using this.1, rfl, this.2⟩

/-- An instance of C1: five queued bytes, chunk size two, three iterations. -/
theorem receive_single_burst_round_trip_witness :
    (Socket.receive queueOS 2 3 ⟨3, ⟨0, [0, 0, 0, 0]⟩, true⟩ ⟨[1, 2, 3, 4, 5], []⟩).1
      = .returned [1, 2, 3, 4, 5] :=
  (receive_single_burst_round_trip 2 3 ⟨3, ⟨0, [0, 0, 0, 0]⟩, true⟩ [1, 2, 3, 4, 5] []
    (by decide) (by decide) rfl (by decide)).1

theorem queue_loop_exact (C : Nat) (fd : Int) (hC : 0 < C) :
    ∀ (j fuel : Nat) (acc q : List Byte) (tr : List Event),
      q.length = (j + 1) * C → j + 1 ≤ fuel →
      ∃ E, (receive_loop queueOS C fd fuel acc ⟨q, tr⟩).2.trace = tr ++ E ∧
        (receive_loop queueOS C fd fuel acc ⟨q, tr⟩).1 = .returned (acc ++ q) ∧
        E.countP Event.isRead = j + 1 ∧ E.countP Event.isQuery = j + 1 ∧
        E.length = 2 * (j + 1) ∧ E.getLast? = some (Event.fionread fd 0) ∧
        (j = 0 → E = [Event.read fd C (some q), Event.fionread fd 0]) := by
  intro j
  induction j with
  | zero =>
    intro fuel acc q tr hlen hfuel
    obtain ⟨n, rfl⟩ : ∃ n, fuel = n + 1 := ⟨fuel - 1, by omega⟩
    have hqC : q.length = C := by simpa using hlen
    have htake : q.take C = q := List.take_of_length_le (by omega)
    have hrd : (sys_read queueOS ⟨q, tr⟩ fd C).1 = some q := by
      rw [queue_read, htake]
    have hdrop : q.drop C = [] := List.drop_of_length_le (by omega)
    have hz : (sys_fionread queueOS (sys_read queueOS ⟨q, tr⟩ fd C).2 fd).1 = 0 := by
      rw [queue_read, queue_fionread, hdrop]
      rfl
    refine ⟨[Event.read fd C (some q), Event.fionread fd 0], ?_, ?_, ?_, ?_, ?_, ?_, ?_⟩
    · rw [receive_loop_stop queueOS C fd n acc ⟨q, tr⟩ q hrd hqC hz, queue_read,
        queue_fionread, htake, hdrop]
      simp
    · rw [receive_loop_stop queueOS C fd n acc ⟨q, tr⟩ q hrd hqC hz]
      simp only [receive_after]
      rw [if_neg (by omega)]
    · simp [Event.isRead]
    · simp [Event.isQuery]
    · simp
    · simp
    · intro _
      rfl
  | succ j ih =>
    intro fuel acc q tr hlen hfuel
    obtain ⟨n, rfl⟩ : ∃ n, fuel = n + 1 := ⟨fuel - 1, by omega⟩
    have hge : C ≤ q.length := by
      rw [hlen, Nat.succ_mul]
      omega
    have hfull : (q.take C).length = C := by
      rw [List.length_take]
      omega
    have hrd : (sys_read queueOS ⟨q, tr⟩ fd C).1 = some (q.take C) := by
      rw [queue_read]
    have hdl : (q.drop C).length = (j + 1) * C := by
      rw [List.length_drop, hlen, Nat.succ_mul (j + 1) C]
      omega
    have hpos : 0 < (q.drop C).length := by
      rw [hdl]
      exact Nat.mul_pos (Nat.succ_pos j) hC
    have hz : (sys_fionread queueOS (sys_read queueOS ⟨q, tr⟩ fd C).2 fd).1 ≠ 0 := by
      rw [queue_read, queue_fionread]
      simp only [ne_eq, Int.natCast_eq_zero]
      omega
    obtain ⟨E, hE, hres, hr, hq, hl, hlast, -⟩ := ih n (acc ++ q.take C) (q.drop C)
      (tr ++ [Event.read fd C (some (q.take C))] ++
        [Event.fionread fd (q.drop C).length]) hdl (by omega)
    refine ⟨Event.read fd C (some (q.take C)) ::
      Event.fionread fd (q.drop C).length :: E, ?_, ?_, ?_, ?_, ?_, ?_, ?_⟩
    · rw [receive_loop_more queueOS C fd n acc ⟨q, tr⟩ (q.take C) hrd hfull hz, queue_read,
        queue_fionread, hE]
      simp
    · rw [receive_loop_more queueOS C fd n acc ⟨q, tr⟩ (q.take C) hrd hfull hz, queue_read,
        queue_fionread, hres]
      simp [List.append_assoc, List.take_append_drop]
    · simp [Event.isRead, hr]
    · simp [Event.isQuery, hq]
    · simp [hl]
      omega
    · have hEne : E ≠ [] := by
        intro h
        rw [h] at hl
        simp at hl
      cases E with
      | nil => exact absurd rfl hEne
      | cons e rest =>
        rw [List.getLast?_cons_cons, List.getLast?_cons_cons]
        exact hlast
    · intro h
      omega

/-- C2: with a positive chunk size `C`, an open connection, exactly `k * C`
bytes queued (`k ≥ 1`) and a silent peer (`queueOS`), `receive` returns all of
them within `k` loop iterations, having issued exactly `k` reads and `k`
`FIONREAD` queries, the last call being a query that reported zero; for
`k = 1` the calls are one read followed by one zero query. -/
theorem receive_exact_multiple (C k fuel : Nat) (s : Socket) (m : List Byte)
    (tr : List Event) (hC : 0 < C) (hk : 1 ≤ k) (hopen : s._is_open = true)
    (hlen : m.length = k * C) (hfuel : k ≤ fuel) :
    (Socket.receive queueOS C fuel s ⟨m, tr⟩).1 = .returned m ∧
    (issued ⟨m, tr⟩ (Socket.receive queueOS C fuel s ⟨m, tr⟩).2.2).countP Event.isRead = k ∧
    (issued ⟨m, tr⟩ (Socket.receive queueOS C fuel s ⟨m, tr⟩).2.2).countP Event.isQuery = k ∧
    (issued ⟨m, tr⟩ (Socket.receive queueOS C fuel s ⟨m, tr⟩).2.2).length = 2 * k ∧
    (issued ⟨m, tr⟩ (Socket.receive queueOS C fuel s ⟨m, tr⟩).2.2).getLast?
      = some (Event.fionread s._sock_fd 0) ∧
    (k = 1 → issued ⟨m, tr⟩ (Socket.receive queueOS C fuel s ⟨m, tr⟩).2.2
      = [Event.read s._sock_fd C (some m), Event.fionread s._sock_fd 0]) := by
  obtain ⟨j, rfl⟩ : ∃ j, k = j + 1 := ⟨k - 1, by omega⟩
  rw [receive_of_open queueOS C fuel s ⟨m, tr⟩ hopen]
  obtain ⟨E, hE, hres, hr, hq, hl, hlast, h1⟩ :=
    queue_loop_exact C s._sock_fd hC j fuel [] m tr hlen hfuel
  have hiss : issued ⟨m, tr⟩ (receive_loop queueOS C s._sock_fd fuel [] ⟨m, tr⟩).2 = E := by
    simp [issued, hE]
  simp only [hiss]
  exact ⟨by simpa using hres, hr, hq, hl, hlast, fun h => h1 (by omega)⟩

/-- An instance of C2: exactly one chunk queued gives one read and one zero query. -/
theorem receive_exact_multiple_witness :
    issued ⟨[1, 2, 3], []⟩
      (Socket.receive queueOS 3 1 ⟨3, ⟨0, [0, 0, 0, 0]⟩, true⟩ ⟨[1, 2, 3], []⟩).2.2
      = [Event.read 3 3 (some [1, 2, 3]), Event.fionread 3 0] :=
  (receive_exact_multiple 3 1 1 ⟨3, ⟨0, [0, 0, 0, 0]⟩, true⟩ [1, 2, 3] []
    (by decide) (by decide) rfl (by decide) (by decide)).2.2.2.2.2 rfl

/-! ## Address conversion -/

theorem digitChar_facts : ∀ d : Fin 10,
    ('0' ≤ digitChar d.val ∧ digitChar d.val ≤ '9') ∧
    (digitChar d.val).toNat - '0'.toNat = d.val ∧ digitChar d.val ≠ '.' := by
  decide

set_option maxRecDepth 100000 in
theorem repr_octet : ∀ a : Fin 256, (Nat.repr a.val).data = fmtOctet a.val := by
  decide

theorem pton_digit (d : Nat) (hd : d < 10) (rest : List Char) (st : PtonState) :
    inet_pton4_loop (digitChar d :: rest) st =
      if st.saw_digit = true ∧ st.cur = 0 then none
      else if st.cur * 10 + d > 255 then none
      else if st.saw_digit = false then
        if st.octets + 1 > 4 then none
        else inet_pton4_loop rest
          { saw_digit := true, octets := st.octets + 1, tmp := st.tmp, cur := st.cur * 10 + d }
      else inet_pton4_loop rest { st with cur := st.cur * 10 + d } := by
  obtain ⟨hrange, hval, -⟩ := digitChar_facts ⟨d, hd⟩
  simp only at hrange hval
  rw [inet_pton4_loop, if_pos hrange]
  simp only [hval]

theorem pton_dot (rest : List Char) (st : PtonState) (hs : st.saw_digit = true)
    (ho : st.octets ≠ 4) :
    inet_pton4_loop ('.' :: rest) st =
      inet_pton4_loop rest
        { saw_digit := false, octets := st.octets, tmp := st.tmp ++ [st.cur], cur := 0 } := by
  have hnd : ¬ ('0' ≤ '.' ∧ '.' ≤ '9') := by decide
  rw [inet_pton4_loop, if_neg hnd, if_pos ⟨rfl, hs⟩, if_neg ho]

theorem pton_digit_first (d : Nat) (hd : d < 10) (rest : List Char) (o : Nat)
    (ho : o < 4) (t : List Nat) :
    inet_pton4_loop (digitChar d :: rest) ⟨false, o, t, 0⟩ =
      inet_pton4_loop rest ⟨true, o + 1, t, d⟩ := by
  rw [pton_digit d hd]
  have h1 : ¬ (0 * 10 + d > 255) := by omega
  have h2 : ¬ (o + 1 > 4) := by omega
  simp [h2]
  omega

theorem pton_digit_next (d : Nat) (hd : d < 10) (rest : List Char) (o : Nat)
    (t : List Nat) (cur : Nat) (hcur : cur ≠ 0) (hnew : cur * 10 + d ≤ 255) :
    inet_pton4_loop (digitChar d :: rest) ⟨true, o, t, cur⟩ =
      inet_pton4_loop rest ⟨true, o, t, cur * 10 + d⟩ := by
  rw [pton_digit d hd]
  have h1 : ¬ (cur * 10 + d > 255) := by omega
  simp [hcur, h1]

/-- Scanning the decimal text of one byte at the start of a field stores the
byte and counts the field. -/
theorem pton_octet (a : Nat) (ha : a < 256) (rest : List Char) (o : Nat) (ho : o < 4)
    (t : List Nat) :
    inet_pton4_loop (fmtOctet a ++ rest) ⟨false, o, t, 0⟩ =
      inet_pton4_loop rest ⟨true, o + 1, t, a⟩ := by
  unfold fmtOctet
  by_cases h10 : a < 10
  · rw [if_pos h10]
    simp only [List.singleton_append]
    rw [pton_digit_first a h10 rest o ho]
  · rw [if_neg h10]
    by_cases h100 : a < 100
    · rw [if_pos h100]
      simp only [List.cons_append, List.nil_append]
      rw [pton_digit_first (a / 10) (by omega) _ o ho,
        pton_digit_next (a % 10) (Nat.mod_lt _ (by omega)) _ _ _ _ (by omega) (by omega)]
      have : a / 10 * 10 + a % 10 = a := by omega
      rw [this]
    · rw [if_neg h100]
      simp only [List.cons_append, List.nil_append]
      rw [pton_digit_first (a / 100) (by omega) _ o ho,
        pton_digit_next (a / 10 % 10) (Nat.mod_lt _ (by omega)) _ _ _ _ (by omega) (by omega),
        pton_digit_next (a % 10) (Nat.mod_lt _ (by omega)) _ _ _ _ (by omega) (by omega)]
      have : (a / 100 * 10 + a / 10 % 10) * 10 + a % 10 = a := by omega
      rw [this]

theorem toString_octet_data (a : Nat) (ha : a < 256) : (toString a).data = fmtOctet a :=
  repr_octet ⟨a, ha⟩

theorem dottedDecimal_data (a b c d : Nat) (ha : a < 256) (hb : b < 256) (hc : c < 256)
    (hd : d < 256) :
    (dottedDecimal a b c d).data =
      fmtOctet a ++ '.' :: (fmtOctet b ++ '.' :: (fmtOctet c ++ '.' :: (fmtOctet d ++ []))) := by
  simp [dottedDecimal, String.data_append, toString_octet_data, ha, hb, hc, hd]

/-- The libc parser accepts every canonical dotted-decimal text and yields its
four bytes. -/
theorem inet_pton_dottedDecimal (a b c d : Nat) (ha : a < 256) (hb : b < 256)
    (hc : c < 256) (hd : d < 256) :
    inet_pton (dottedDecimal a b c d) = some [a, b, c, d] := by
  unfold inet_pton
  rw [dottedDecimal_data a b c d ha hb hc hd, pton_octet a ha _ 0 (by omega),
    pton_dot _ _ rfl (by simp), pton_octet b hb _ 1 (by omega),
    pton_dot _ _ rfl (by simp), pton_octet c hc _ 2 (by omega),
    pton_dot _ _ rfl (by simp), pton_octet d hd _ 3 (by omega)]
  simp [inet_pton4_loop]

/-- The libc formatter renders four bytes as their canonical text. -/
theorem inet_ntop_bytes (a b c d : Nat) (ha : a < 256) (hb : b < 256) (hc : c < 256)
    (hd : d < 256) : inet_ntop [a, b, c, d] = dottedDecimal a b c d := by
  apply String.ext
  rw [dottedDecimal_data a b c d ha hb hc hd]
  simp [inet_ntop, List.intercalate]

theorem bswap16_bswap16 (port : Nat) (hp : port < 65536) :
    bswap16 (bswap16 port % 65536) = port := by
  unfold bswap16
  have hy : port % 256 * 256 + port / 256 % 256 < 65536 := by omega
  rw [Nat.mod_eq_of_lt hy]
  have h3 : (port % 256 * 256 + port / 256 % 256) % 256 = port / 256 % 256 := by omega
  have h4 : (port % 256 * 256 + port / 256 % 256) / 256 = port % 256 := by omega
  rw [h3, h4]
  omega

theorem ntohs_htons (le : Bool) (port : Nat) (hp : port < 65536) :
    ntohs le (htons le port) = port := by
  unfold ntohs htons
  cases le
  · simp only [Bool.false_eq_true, if_false]
    rw [Nat.mod_eq_of_lt hp, Nat.mod_eq_of_lt hp]
  · simp only [if_true]
    rw [Nat.mod_eq_of_lt hp]
    exact bswap16_bswap16 port hp

/-- The constructor with its assertion resolved (`_is_open` starts false). -/
theorem ctor_eq (asserts : Bool) (k : OS σ) (addr : SocketAddress) (w : World σ) :
    Socket.ctor asserts k addr w =
      if (sys_connect k (sys_socket k w).2 (sys_socket k w).1
          (ctorSockAddr k.littleEndian addr)).1 ≠ 0 then
        (.threw ⟨"Failed to connect to " ++
            inet_ntop (ctorSockAddr k.littleEndian addr).sin_addr ++ ":" ++
            toString (ntohs k.littleEndian (ctorSockAddr k.littleEndian addr).sin_port) ++
            ". Reason: " ++
            k.strerror (k.errno (sys_connect k (sys_socket k w).2 (sys_socket k w).1
              (ctorSockAddr k.littleEndian addr)).2.os)⟩,
          ⟨(sys_socket k w).1, ctorSockAddr k.littleEndian addr, false⟩,
          (sys_connect k (sys_socket k w).2 (sys_socket k w).1
            (ctorSockAddr k.littleEndian addr)).2)
      else
        (.returned (), ⟨(sys_socket k w).1, ctorSockAddr k.littleEndian addr, true⟩,
          (sys_connect k (sys_socket k w).2 (sys_socket k w).1
            (ctorSockAddr k.littleEndian addr)).2) := by
  simp only [Socket.ctor, Socket._connect, ctorSockAddr]
  rw [if_neg (by simp)]

/-- The address stored by the constructor, however the connect ends. -/
theorem ctor_address (asserts : Bool) (k : OS σ) (addr : SocketAddress) (w : World σ) :
    (Socket.ctor asserts k addr w).2.1._address = ctorSockAddr k.littleEndian addr := by
  rw [ctor_eq]
  split <;> rfl

theorem ctor_returned_open (asserts : Bool) (k : OS σ) (addr : SocketAddress) (w : World σ)
    (hok : (Socket.ctor asserts k addr w).1 = .returned ()) :
    (Socket.ctor asserts k addr w).2.1._is_open = true := by
  rw [ctor_eq] at hok ⊢
  split at hok
  · cases hok
  · rename_i hr
    rw [if_neg hr]

/-- C7: after a successful outbound construction for the canonical
dotted-decimal text of bytes `a.b.c.d` and a port below 65536, the connection
is open and `get_socket_address` returns exactly that text and that port; and
`get_socket_address` never looks at `_is_open`. -/
theorem address_round_trip (asserts : Bool) (k : OS σ) (w : World σ) (a b c d port : Nat)
    (ha : a < 256) (hb : b < 256) (hc : c < 256) (hd : d < 256) (hp : port < 65536)
    (hok : (Socket.ctor asserts k ⟨dottedDecimal a b c d, port⟩ w).1 = .returned ()) :
    (Socket.ctor asserts k ⟨dottedDecimal a b c d, port⟩ w).2.1._is_open = true ∧
    Socket.get_socket_address k.littleEndian
        (Socket.ctor asserts k ⟨dottedDecimal a b c d, port⟩ w).2.1
      = ⟨dottedDecimal a b c d, port⟩ ∧
    (∀ (s : Socket) (o : Bool),
      Socket.get_socket_address k.littleEndian { s with _is_open := o }
        = Socket.get_socket_address k.littleEndian s) := by
  refine ⟨ctor_returned_open asserts k _ w hok, ?_, fun s o => rfl⟩
  unfold Socket.get_socket_address
  rw [ctor_address]
  simp only [ctorSockAddr, inet_pton_dottedDecimal a b c d ha hb hc hd]
  rw [inet_ntop_bytes a b c d ha hb hc hd, ntohs_htons k.littleEndian port hp]

/-- An instance of C7: 192.168.0.17 port 8080 on an OS whose connect succeeds. -/
theorem address_round_trip_witness :
    Socket.get_socket_address scriptOS.littleEndian
        (Socket.ctor true scriptOS ⟨dottedDecimal 192 168 0 17, 8080⟩
          ⟨⟨[], [], [3, 0], 0⟩, []⟩).2.1
      = ⟨dottedDecimal 192 168 0 17, 8080⟩ :=
  (address_round_trip true scriptOS ⟨⟨[], [], [3, 0], 0⟩, []⟩ 192 168 0 17 8080
    (by decide) (by decide) (by decide) (by decide) (by decide)
    (by simp [Socket.ctor, Socket._connect, sys_connect, sys_socket, scriptOS])).2.1

/-! ## Failed outbound connect -/

/-- Whatever the OS, a constructor whose `connect` fails exits by exception
with `_is_open` false after exactly two system calls, `socket` and `connect`;
the descriptor obtained from `socket` is not passed to `close`, and the
destructor applied to these members issues no call either. -/
theorem ctor_connect_failure (asserts : Bool) (k : OS σ) (addr : SocketAddress)
    (w : World σ) (e : SocketException)
    (hfail : (Socket.ctor asserts k addr w).1 = .threw e) :
    (Socket.ctor asserts k addr w).2.1._is_open = false ∧
    (∃ (fd : Int) (sa : SockAddrIn) (status : Int),
      issued w (Socket.ctor asserts k addr w).2.2
        = [Event.socket fd, Event.connect fd sa status] ∧ status ≠ 0 ∧
      (Socket.ctor asserts k addr w).2.1._sock_fd = fd) ∧
    Socket.destroy k (Socket.ctor asserts k addr w).2.1 (Socket.ctor asserts k addr w).2.2
      = ((Socket.ctor asserts k addr w).2.1, (Socket.ctor asserts k addr w).2.2) := by
  rw [ctor_eq] at hfail ⊢
  split at hfail
  · rename_i hr
    rw [if_pos hr]
    refine ⟨rfl, ⟨(sys_socket k w).1, ctorSockAddr k.littleEndian addr,
      (sys_connect k (sys_socket k w).2 (sys_socket k w).1
        (ctorSockAddr k.littleEndian addr)).1, ?_, hr, rfl⟩, ?_⟩
    · simp [issued, sys_connect, sys_socket]
    · simp [Socket.destroy]
  · cases hfail

/-- C6, the code at a failing input: with no descriptor open, constructing a
connection to 10.0.0.1:80 on an OS that refuses the connect throws the
connect exception with `_is_open` false, after `socket` and `connect` only;
descriptor 3 stays open in the OS, and the destructor, were it run on these
members, would leave it open too. -/
theorem failed_connect_leaks_descriptor :
    (Socket.ctor true refusingOS ⟨"10.0.0.1", 80⟩ ⟨⟨[], 0⟩, []⟩).1
      = .threw ⟨"Failed to connect to 10.0.0.1:80. Reason: Connection refused"⟩ ∧
    (Socket.ctor true refusingOS ⟨"10.0.0.1", 80⟩ ⟨⟨[], 0⟩, []⟩).2.1._is_open = false ∧
    (Socket.ctor true refusingOS ⟨"10.0.0.1", 80⟩ ⟨⟨[], 0⟩, []⟩).2.2.trace
      = [Event.socket 3, Event.connect 3 ⟨20480, [10, 0, 0, 1]⟩ (-1)] ∧
    (Socket.ctor true refusingOS ⟨"10.0.0.1", 80⟩ ⟨⟨[], 0⟩, []⟩).2.2.os.openFds = [3] ∧
    (Socket.destroy refusingOS
        (Socket.ctor true refusingOS ⟨"10.0.0.1", 80⟩ ⟨⟨[], 0⟩, []⟩).2.1
        (Socket.ctor true refusingOS ⟨"10.0.0.1", 80⟩ ⟨⟨[], 0⟩, []⟩).2.2).2.os.openFds
      = [3] := by
  decide

end p2psc
